import Mathlib

/-!
Shallow embedding of the `timer` library (src/timer.h).

The embedding covers the timestamp record (`TimeStamp`), the duration
formatter (`TimeStamp.to_string`), and the measurement-series engine
(`Timer`): its record list, auto-label counter, known-thread set, the
debug-state tracker, the append/query operations and the printed output
lines.  Machine integers (`int64_t`, `int`) are modelled as `ℤ` / `Nat`
(the operations involved never overflow their C++ ranges in the scenarios
the specification speaks about), the `double` arithmetic of the duration
formatter is kept exact as `ℚ`, and `std::thread::id` values are modelled
as naturals ordered by `<`, mirroring the implementation-defined strict
total order that `std::set<std::thread::id>` sorts by.  Debug mode
(`TIMER_DEBUG`) is a boolean parameter `dbg`; failures of the debug
checks (which abort the process in C++) are modelled with `Except`.
-/

/-- A duration as rendered by `TimeStamp::to_string`: the divided value
(the C++ source computes it in `double`; we keep it exact as a rational)
and the unit suffix string appended after the number.  Note the source
file is plain ASCII and its microsecond suffix literal is the two
question marks followed by `s`. -/
structure DurationString where
  value : ℚ
  unit : String
  deriving DecidableEq

/-- `TimeStamp::to_string(int64_t)`: choose the unit tier by first match
top to bottom with inclusive lower bounds, and divide by that tier's
divisor. -/
def TimeStamp.to_string (time : ℤ) : DurationString :=
  if 100000000 ≤ time then ⟨(time : ℚ) / 1000000000, "s"⟩
  else if 100000 ≤ time then ⟨(time : ℚ) / 1000000, "ms"⟩
  else if 100 ≤ time then ⟨(time : ℚ) / 1000, "??s"⟩
  else ⟨(time : ℚ), "ns"⟩

/-- One timestamp record: the label, the captured monotonic-clock reading
in nanoseconds, and the identity of the recording thread. -/
structure TimeStamp (α : Type) where
  name : α
  time_stamp : ℤ
  thread_id : Nat
  deriving DecidableEq

instance {α : Type} [Inhabited α] : Inhabited (TimeStamp α) := ⟨⟨default, 0, 0⟩⟩

/-- `TimeStamp::get_diff(first, last) = last.time_stamp - first.time_stamp`. -/
def TimeStamp.get_diff {α : Type} (first last : TimeStamp α) : ℤ :=
  last.time_stamp - first.time_stamp

/-- `Timer::integer_string_literal_helper(int)`: a table of the ten string
literals `"0"` .. `"9"`, everything from ten on maps to the empty string.
The timer only ever calls it with its non-negative auto-label counter, so
the argument is modelled as a natural number. -/
def integer_string_literal_helper (i : Nat) : String :=
  if i < 10 then ["0", "1", "2", "3", "4", "5", "6", "7", "8", "9"].getD i "" else ""

/-- The usage errors detected by the debug-state tracker (strict/debug
configuration).  In C++ each one prints a diagnostic and aborts. -/
inductive TimerError where
  | DoubleInitialization
  | PrecedenceViolation
  | InsufficientData
  deriving DecidableEq

/-- The mutable state of a `Timer`: the record list `time_stamps`, the
auto-naming counter `id`, the set of observed thread identities
`thread_ids` (kept as the sorted list that `std::set` iterates), and the
two `DebugStateTracker` fields. -/
structure TimerState (α : Type) where
  time_stamps : List (TimeStamp α)
  id : Nat
  thread_ids : List Nat
  dbg_initialized : Bool
  dbg_number_of_events : ℤ
  deriving DecidableEq

/-- A freshly constructed `Timer`. -/
def TimerState.initial (α : Type) : TimerState α := ⟨[], 0, [], false, 0⟩

/-- `std::set<std::thread::id>::insert`: insert into the sorted
duplicate-free list of known thread identities. -/
def set_insert (x : Nat) : List Nat → List Nat
  | [] => [x]
  | y :: ys => if x < y then x :: y :: ys else if x = y then y :: ys else y :: set_insert x ys

/-- The loop body of `Timer::get_thread_name`: walk the known-thread set
in its iteration (sorted) order counting positions, `-1` if absent. -/
def get_thread_name_from (id_ : Nat) : ℤ → List Nat → ℤ
  | _, [] => -1
  | i, t :: ts => if t = id_ then i else get_thread_name_from id_ (i + 1) ts

/-- `Timer::get_thread_name`: position of a thread identity in the
iteration order of `thread_ids`, or `-1` when it was never observed. -/
def Timer.get_thread_name {α : Type} (s : TimerState α) (id_ : Nat) : ℤ :=
  get_thread_name_from id_ 0 s.thread_ids

/-- `Timer::has_threads`: more than one distinct thread identity observed. -/
def Timer.has_threads {α : Type} (s : TimerState α) : Bool :=
  decide (1 < s.thread_ids.length)

/-- `Timer::reset`: `debug_reset()` (a no-op in the production build),
then clear the records, the auto-label counter and the thread set. -/
def Timer.reset {α : Type} (dbg : Bool) (s : TimerState α) : TimerState α :=
  let s1 := if dbg then { s with dbg_initialized := false, dbg_number_of_events := 0 } else s
  { s1 with time_stamps := [], id := 0, thread_ids := [] }

/-- `Timer::add_thread_unsafe`: the debug initialization check, then
`debug_add_event()`, then record the calling thread and append one
timestamp captured at time `t`. -/
def Timer.add_thread_unsafe {α : Type} (dbg : Bool) (s : TimerState α) (name : α) (t : ℤ)
    (tid : Nat) : Except TimerError (TimerState α) :=
  if dbg && !s.dbg_initialized then .error .PrecedenceViolation
  else
    let s1 := if dbg then { s with dbg_number_of_events := s.dbg_number_of_events + 1 } else s
    .ok { s1 with thread_ids := set_insert tid s1.thread_ids,
                  time_stamps := s1.time_stamps ++ [⟨name, t, tid⟩] }

/-- `Timer::add(NAME_TYPE)`: take the guard and append (the lock is
invisible in this sequential model). -/
def Timer.add {α : Type} (dbg : Bool) (s : TimerState α) (name : α) (t : ℤ) (tid : Nat) :
    Except TimerError (TimerState α) :=
  Timer.add_thread_unsafe dbg s name t tid

/-- `Timer::add()`: append an event labeled from the auto-label counter
and advance the counter.  The type-directed label generation of the C++
template (`int` / `std::string` / `const char *`) is the parameter
`auto`. -/
def Timer.add_auto {α : Type} (dbg : Bool) (auto : Nat → α) (s : TimerState α) (t : ℤ)
    (tid : Nat) : Except TimerError (TimerState α) :=
  match Timer.add dbg s (auto s.id) t tid with
  | .error e => .error e
  | .ok s2 => .ok { s2 with id := s2.id + 1 }

/-- `Timer::initialize`: reset when records are present, `debug_init()`,
then append the reference event through the auto-label path. -/
def Timer.initialize {α : Type} (dbg : Bool) (auto : Nat → α) (s : TimerState α) (t : ℤ)
    (tid : Nat) : Except TimerError (TimerState α) :=
  let s1 := if s.time_stamps.isEmpty then s else Timer.reset dbg s
  if dbg && s1.dbg_initialized then .error .DoubleInitialization
  else
    let s2 := if dbg then { s1 with dbg_initialized := true } else s1
    Timer.add_auto dbg auto s2 t tid

/-- `time_stamps[i]` (vector indexing; the C++ contract keeps indices in
range, out-of-range access is undefined there and defaulted here). -/
def Timer.nth {α : Type} [Inhabited α] (s : TimerState α) (i : Nat) : TimeStamp α :=
  s.time_stamps.getD i default

/-- `Timer::get_time_since_init(index)`. -/
def Timer.get_time_since_init {α : Type} [Inhabited α] (s : TimerState α) (index : Nat) : ℤ :=
  TimeStamp.get_diff (Timer.nth s 0) (Timer.nth s index)

/-- `Timer::get_time_since_last(index)`. -/
def Timer.get_time_since_last {α : Type} [Inhabited α] (s : TimerState α) (index : Nat) : ℤ :=
  TimeStamp.get_diff (Timer.nth s (index - 1)) (Timer.nth s index)

/-- `Timer::thread_output_formatter`: empty unless more than one thread
has been observed, otherwise the `" in thread : <index>"` clause. -/
def Timer.thread_output_formatter {α : Type} (s : TimerState α) (ts : TimeStamp α) : String :=
  if !(Timer.has_threads s) then ""
  else " in thread : " ++ toString (Timer.get_thread_name s ts.thread_id)

/-- One printed measurement line: the label, the two formatted durations
and the (possibly empty) thread clause. -/
structure OutputLine (α : Type) where
  name : α
  since_last : DurationString
  since_init : DurationString
  thread_clause : String
  deriving DecidableEq

/-- `Timer::print_current`: `debug_check_if_loggable()` then the line for
the record at index `size - 1`. -/
def Timer.print_current {α : Type} [Inhabited α] (dbg : Bool) (s : TimerState α) :
    Except TimerError (OutputLine α) :=
  if dbg && decide (s.dbg_number_of_events ≤ 1) then .error .InsufficientData
  else
    let index := s.time_stamps.length - 1
    .ok ⟨(Timer.nth s index).name,
         TimeStamp.to_string (Timer.get_time_since_last s index),
         TimeStamp.to_string (Timer.get_time_since_init s index),
         Timer.thread_output_formatter s (Timer.nth s index)⟩

/-- `Timer::log`: the per-record lines for indices `1 .. size - 1` in
append order (the constant header line is not a per-record line). -/
def Timer.log_lines {α : Type} [Inhabited α] (s : TimerState α) : List (OutputLine α) :=
  ((List.range s.time_stamps.length).drop 1).map fun i =>
    ⟨(Timer.nth s i).name,
     TimeStamp.to_string (Timer.get_time_since_last s i),
     TimeStamp.to_string (Timer.get_time_since_init s i),
     Timer.thread_output_formatter s (Timer.nth s i)⟩

/-- One call of the public mutating interface of `Timer`, with the clock
reading and the calling thread it happens under. -/
inductive TimerOp (α : Type) where
  | init (t : ℤ) (tid : Nat)
  | addNamed (name : α) (t : ℤ) (tid : Nat)
  | addAuto (t : ℤ) (tid : Nat)
  | doReset
  deriving DecidableEq

/-- Whether an operation is one of the two `add` entry points. -/
def TimerOp.isAdd {α : Type} : TimerOp α → Bool
  | .addNamed _ _ _ => true
  | .addAuto _ _ => true
  | _ => false

/-- Run one operation. -/
def Timer.runOp {α : Type} (dbg : Bool) (auto : Nat → α) (s : TimerState α) :
    TimerOp α → Except TimerError (TimerState α)
  | .init t tid => Timer.initialize dbg auto s t tid
  | .addNamed n t tid => Timer.add dbg s n t tid
  | .addAuto t tid => Timer.add_auto dbg auto s t tid
  | .doReset => .ok (Timer.reset dbg s)

/-- Run a sequence of operations, stopping at the first debug failure. -/
def Timer.runOps {α : Type} (dbg : Bool) (auto : Nat → α) :
    TimerState α → List (TimerOp α) → Except TimerError (TimerState α)
  | s, [] => .ok s
  | s, op :: ops =>
    match Timer.runOp dbg auto s op with
    | .error e => .error e
    | .ok s2 => Timer.runOps dbg auto s2 ops

/-- Run a sequence of operations on a freshly constructed `Timer`. -/
def Timer.run {α : Type} (dbg : Bool) (auto : Nat → α) (ops : List (TimerOp α)) :
    Except TimerError (TimerState α) :=
  Timer.runOps dbg auto (TimerState.initial α) ops

/-- The labels of the records of a successful run, in append order. -/
def finalLabels {α : Type} (r : Except TimerError (TimerState α)) : List α :=
  match r with
  | .ok s => s.time_stamps.map TimeStamp.name
  | .error _ => []

/-- The label sequence the specification's labeling rule assigns to a
sequence of `add` calls when the auto-label counter currently stands at
`k`: a named add keeps its label and leaves the counter alone, an
auto-labeled add takes the current counter value and advances it. -/
def expectedLabels {α : Type} (auto : Nat → α) : Nat → List (TimerOp α) → List α
  | _, [] => []
  | k, .addNamed n _ _ :: ops => n :: expectedLabels auto k ops
  | k, .addAuto _ _ :: ops => auto k :: expectedLabels auto (k + 1) ops
  | k, .init _ _ :: ops => expectedLabels auto k ops
  | k, .doReset :: ops => expectedLabels auto k ops

/-- Unfolding description of `Timer.add_thread_unsafe`. -/
theorem add_thread_unsafe_eq {α : Type} (dbg : Bool) (s : TimerState α) (n : α) (t : ℤ)
    (tid : Nat) :
    Timer.add_thread_unsafe dbg s n t tid =
      if dbg && !s.dbg_initialized then .error .PrecedenceViolation
      else .ok ⟨s.time_stamps ++ [⟨n, t, tid⟩], s.id, set_insert tid s.thread_ids,
        s.dbg_initialized, if dbg then s.dbg_number_of_events + 1 else s.dbg_number_of_events⟩ := by
  obtain ⟨st, i, th, ini, ev⟩ := s
  cases dbg <;> cases ini <;> rfl

/-- Unfolding description of `Timer.add` (it just takes the guard). -/
theorem add_eq {α : Type} (dbg : Bool) (s : TimerState α) (n : α) (t : ℤ) (tid : Nat) :
    Timer.add dbg s n t tid =
      if dbg && !s.dbg_initialized then .error .PrecedenceViolation
      else .ok ⟨s.time_stamps ++ [⟨n, t, tid⟩], s.id, set_insert tid s.thread_ids,
        s.dbg_initialized, if dbg then s.dbg_number_of_events + 1 else s.dbg_number_of_events⟩ :=
  add_thread_unsafe_eq dbg s n t tid

/-- Unfolding description of the auto-labeled `Timer.add_auto`. -/
theorem add_auto_eq {α : Type} (dbg : Bool) (auto : Nat → α) (s : TimerState α) (t : ℤ)
    (tid : Nat) :
    Timer.add_auto dbg auto s t tid =
      if dbg && !s.dbg_initialized then .error .PrecedenceViolation
      else .ok ⟨s.time_stamps ++ [⟨auto s.id, t, tid⟩], s.id + 1, set_insert tid s.thread_ids,
        s.dbg_initialized, if dbg then s.dbg_number_of_events + 1 else s.dbg_number_of_events⟩ := by
  obtain ⟨st, i, th, ini, ev⟩ := s
  cases dbg <;> cases ini <;> rfl

/-- Invariant satisfied by every state a `Timer` can reach: the known
threads are strictly sorted; an empty record list comes with a cleared
counter and thread set; in the debug build the event counter matches the
record count and the initialization flag matches nonemptiness; in the
production build both debug fields stay at their defaults. -/
def Timer.Inv {α : Type} (dbg : Bool) (s : TimerState α) : Prop :=
  s.thread_ids.Pairwise (· < ·)
  ∧ (s.time_stamps = [] → s.id = 0 ∧ s.thread_ids = [])
  ∧ (dbg = true →
      s.dbg_number_of_events = s.time_stamps.length
      ∧ (s.dbg_initialized = true ↔ s.time_stamps ≠ []))
  ∧ (dbg = false → s.dbg_initialized = false ∧ s.dbg_number_of_events = 0)

theorem Inv_initial {α : Type} (dbg : Bool) : Timer.Inv dbg (TimerState.initial α) := by
  cases dbg <;> simp [Timer.Inv, TimerState.initial]

theorem mem_set_insert {x y : Nat} : ∀ {l : List Nat}, y ∈ set_insert x l ↔ y = x ∨ y ∈ l
  | [] => by simp [set_insert]
  | z :: zs => by
    by_cases h1 : x < z
    · simp [set_insert, h1, or_comm, or_assoc, or_left_comm]
    · by_cases h2 : x = z
      · subst h2
        simp [set_insert, h1]
      · simp [set_insert, h1, h2, mem_set_insert (l := zs), or_left_comm]

theorem set_insert_pairwise {x : Nat} :
    ∀ {l : List Nat}, l.Pairwise (· < ·) → (set_insert x l).Pairwise (· < ·)
  | [], _ => by simp [set_insert]
  | z :: zs, h => by
    obtain ⟨hz, hzs⟩ := List.pairwise_cons.mp h
    rw [set_insert]
    by_cases h1 : x < z
    · simp only [if_pos h1]
      refine List.pairwise_cons.mpr ⟨?_, h⟩
      intro y hy
      rcases List.mem_cons.mp hy with h' | h'
      · omega
      · exact lt_trans h1 (hz y h')
    · by_cases h2 : x = z
      · simp only [if_neg h1, if_pos h2]
        exact h
      · simp only [if_neg h1, if_neg h2]
        refine List.pairwise_cons.mpr ⟨?_, set_insert_pairwise hzs⟩
        intro y hy
        rcases mem_set_insert.mp hy with h' | h'
        · omega
        · exact hz y h'

/-- `Timer.initialize` from any state satisfying the invariant: no error
is possible, and the resulting series is exactly the reference event
labeled from counter value `0`. -/
theorem initialize_ok_of_inv {α : Type} {dbg : Bool} (auto : Nat → α) {s : TimerState α}
    (h : Timer.Inv dbg s) (t : ℤ) (tid : Nat) :
    Timer.initialize dbg auto s t tid =
      .ok ⟨[⟨auto 0, t, tid⟩], 1, [tid], dbg, if dbg then 1 else 0⟩ := by
  obtain ⟨hsort, hemp, hdbgt, hdbgf⟩ := h
  by_cases he : s.time_stamps = []
  · have h4 : s.dbg_initialized = false := by
      cases dbg with
      | false => exact (hdbgf rfl).1
      | true =>
        have h5 := (hdbgt rfl).2
        simp [he] at h5
        exact h5
    have h6 : s.dbg_number_of_events = 0 := by
      cases dbg with
      | false => exact (hdbgf rfl).2
      | true => simpa [he] using (hdbgt rfl).1
    have hs : s = TimerState.initial α := by
      obtain ⟨st, i, th, ini, ev⟩ := s
      obtain ⟨hi, hth⟩ := hemp he
      simp only at he h4 h6 hi hth
      subst he h4 h6 hi hth
      rfl
    subst hs
    cases dbg <;> rfl
  · have hne : s.time_stamps.isEmpty = false := by
      simpa [List.isEmpty_iff] using he
    have hres : Timer.reset dbg s = TimerState.initial α := by
      cases dbg with
      | true => rfl
      | false =>
        obtain ⟨hini, hev⟩ := hdbgf rfl
        obtain ⟨st, i, th, ini, ev⟩ := s
        simp only at hini hev
        subst hini hev
        rfl
    unfold Timer.initialize
    rw [hne]
    simp only [Bool.false_eq_true, if_false, hres]
    cases dbg <;> rfl

theorem Inv_runOp {α : Type} {dbg : Bool} {auto : Nat → α} {s s2 : TimerState α}
    {op : TimerOp α} (h : Timer.Inv dbg s) (hr : Timer.runOp dbg auto s op = .ok s2) :
    Timer.Inv dbg s2 := by
  obtain ⟨hsort, hemp, hdbgt, hdbgf⟩ := h
  cases op with
  | init t tid =>
    rw [Timer.runOp, initialize_ok_of_inv auto ⟨hsort, hemp, hdbgt, hdbgf⟩ t tid] at hr
    cases hr
    cases dbg <;> simp [Timer.Inv]
  | addNamed n t tid =>
    rw [Timer.runOp, add_eq] at hr
    by_cases hg : (dbg && !s.dbg_initialized) = true
    · rw [if_pos hg] at hr; cases hr
    · rw [if_neg hg] at hr
      cases hr
      refine ⟨set_insert_pairwise hsort, by simp, ?_, ?_⟩
      · intro hd
        subst hd
        obtain ⟨hev, hini⟩ := hdbgt rfl
        simp only [Bool.true_and, Bool.not_eq_true'] at hg
        have hini' : s.dbg_initialized = true := by
          cases hb : s.dbg_initialized
          · exact absurd hb hg
          · rfl
        refine ⟨by simp [hev], ?_⟩
        simp [hini']
      · intro hd
        subst hd
        obtain ⟨hini, hev⟩ := hdbgf rfl
        exact ⟨hini, by simp [hev]⟩
  | addAuto t tid =>
    rw [Timer.runOp, add_auto_eq] at hr
    by_cases hg : (dbg && !s.dbg_initialized) = true
    · rw [if_pos hg] at hr; cases hr
    · rw [if_neg hg] at hr
      cases hr
      refine ⟨set_insert_pairwise hsort, by simp, ?_, ?_⟩
      · intro hd
        subst hd
        obtain ⟨hev, hini⟩ := hdbgt rfl
        simp only [Bool.true_and, Bool.not_eq_true'] at hg
        have hini' : s.dbg_initialized = true := by
          cases hb : s.dbg_initialized
          · exact absurd hb hg
          · rfl
        refine ⟨by simp [hev], ?_⟩
        simp [hini']
      · intro hd
        subst hd
        obtain ⟨hini, hev⟩ := hdbgf rfl
        exact ⟨hini, by simp [hev]⟩
  | doReset =>
    rw [Timer.runOp] at hr
    cases hr
    cases dbg with
    | true => simp [Timer.Inv, Timer.reset]
    | false =>
      obtain ⟨hini, hev⟩ := hdbgf rfl
      simp [Timer.Inv, Timer.reset, hini, hev]

theorem Inv_runOps {α : Type} {dbg : Bool} {auto : Nat → α} :
    ∀ {ops : List (TimerOp α)} {s s2 : TimerState α}, Timer.Inv dbg s →
      Timer.runOps dbg auto s ops = .ok s2 → Timer.Inv dbg s2
  | [], s, s2, h, hr => by
    rw [Timer.runOps] at hr
    cases hr
    exact h
  | op :: ops, s, s2, h, hr => by
    rw [Timer.runOps] at hr
    cases hop : Timer.runOp dbg auto s op with
    | error e => rw [hop] at hr; cases hr
    | ok s1 =>
      rw [hop] at hr
      exact Inv_runOps (Inv_runOp h hop) hr

theorem Inv_run {α : Type} {dbg : Bool} {auto : Nat → α} {ops : List (TimerOp α)}
    {s : TimerState α} (h : Timer.run dbg auto ops = .ok s) : Timer.Inv dbg s :=
  Inv_runOps (Inv_initial dbg) h

theorem get_thread_name_from_not_mem {id_ : Nat} :
    ∀ {l : List Nat}, id_ ∉ l → ∀ i : ℤ, get_thread_name_from id_ i l = -1
  | [], _, _ => rfl
  | z :: zs, h, i => by
    have hz : z ≠ id_ := fun he => h (he ▸ List.mem_cons_self z zs)
    rw [get_thread_name_from, if_neg hz]
    exact get_thread_name_from_not_mem (fun hm => h (List.mem_cons_of_mem z hm)) (i + 1)

/-- On the sorted duplicate-free thread set, the loop of
`get_thread_name` returns the start value plus the number of identities
ordered strictly below the one looked up. -/
theorem get_thread_name_from_sorted {id_ : Nat} :
    ∀ {l : List Nat}, l.Pairwise (· < ·) → id_ ∈ l → ∀ i : ℤ,
      get_thread_name_from id_ i l = i + (l.filter (fun x => decide (x < id_))).length
  | [], _, hm, _ => absurd hm (List.not_mem_nil id_)
  | z :: zs, h, hm, i => by
    obtain ⟨hz, hzs⟩ := List.pairwise_cons.mp h
    by_cases he : z = id_
    · subst he
      have : ∀ x ∈ zs, ¬(x < z) := fun x hx => by
        have := hz x hx; omega
      rw [get_thread_name_from, if_pos rfl]
      have hf : (z :: zs).filter (fun x => decide (x < z)) = [] := by
        refine List.filter_eq_nil_iff.mpr ?_
        intro x hx
        simp only [decide_eq_true_eq]
        rcases List.mem_cons.mp hx with h' | h'
        · omega
        · exact this x h'
      rw [hf]
      simp
    · have hm' : id_ ∈ zs := by
        rcases List.mem_cons.mp hm with h' | h'
        · exact absurd h'.symm he
        · exact h'
      have hlt : z < id_ := hz id_ hm'
      rw [get_thread_name_from, if_neg he,
        get_thread_name_from_sorted hzs hm' (i + 1), List.filter_cons,
        if_pos (decide_eq_true hlt)]
      simp only [List.length_cons]
      push_cast
      ring

/-- Inserting an identity that is not ordered below `id_` does not change
the loop result for `id_` when `id_` is already present. -/
theorem get_thread_name_from_set_insert {id_ x : Nat} :
    ∀ {l : List Nat}, l.Pairwise (· < ·) → id_ ∈ l → id_ ≤ x → ∀ i : ℤ,
      get_thread_name_from id_ i (set_insert x l) = get_thread_name_from id_ i l
  | [], _, hm, _, _ => absurd hm (List.not_mem_nil id_)
  | z :: zs, h, hm, hle, i => by
    obtain ⟨hz, hzs⟩ := List.pairwise_cons.mp h
    rw [set_insert]
    by_cases h1 : x < z
    · exfalso
      rcases List.mem_cons.mp hm with h' | h'
      · omega
      · have := hz id_ h'; omega
    · by_cases h2 : x = z
      · simp only [if_neg h1, if_pos h2]
      · simp only [if_neg h1, if_neg h2]
        by_cases he : z = id_
        · rw [get_thread_name_from, if_pos he, get_thread_name_from, if_pos he]
        · have hm' : id_ ∈ zs := by
            rcases List.mem_cons.mp hm with h' | h'
            · exact absurd h'.symm he
            · exact h'
          rw [get_thread_name_from, if_neg he, get_thread_name_from, if_neg he]
          exact get_thread_name_from_set_insert hzs hm' hle (i + 1)

/-- Running only `add` operations from a state whose debug flag allows
them: no error occurs, one record is appended per call, the labels land
exactly as the labeling rule predicts from the current counter, and the
counter keeps permitting further adds. -/
theorem runOps_adds {α : Type} {dbg : Bool} {auto : Nat → α} :
    ∀ (ops : List (TimerOp α)) (s : TimerState α),
      (dbg = true → s.dbg_initialized = true) →
      (∀ op ∈ ops, op.isAdd = true) →
      ∃ s2, Timer.runOps dbg auto s ops = .ok s2
        ∧ s2.time_stamps.map TimeStamp.name
            = s.time_stamps.map TimeStamp.name ++ expectedLabels auto s.id ops
        ∧ s2.time_stamps.length = s.time_stamps.length + ops.length
        ∧ (dbg = true → s2.dbg_initialized = true)
  | [], s, hinit, _ => ⟨s, rfl, by simp [expectedLabels], by simp, hinit⟩
  | op :: ops, s, hinit, hadds => by
    have hop := hadds op (List.mem_cons_self op ops)
    have hguard : (dbg && !s.dbg_initialized) = false := by
      cases dbg with
      | false => rfl
      | true => simp [hinit rfl]
    cases op with
    | init t tid => simp [TimerOp.isAdd] at hop
    | doReset => simp [TimerOp.isAdd] at hop
    | addNamed n t tid =>
      have hstep : Timer.runOp dbg auto s (.addNamed n t tid) =
          .ok ⟨s.time_stamps ++ [⟨n, t, tid⟩], s.id, set_insert tid s.thread_ids,
            s.dbg_initialized,
            if dbg then s.dbg_number_of_events + 1 else s.dbg_number_of_events⟩ := by
        rw [Timer.runOp, add_eq, hguard]
        simp
      obtain ⟨s2, hrun, hmap, hlen, hini2⟩ :=
        runOps_adds ops
          ⟨s.time_stamps ++ [⟨n, t, tid⟩], s.id, set_insert tid s.thread_ids,
            s.dbg_initialized,
            if dbg then s.dbg_number_of_events + 1 else s.dbg_number_of_events⟩
          hinit (fun o ho => hadds o (List.mem_cons_of_mem _ ho))
      refine ⟨s2, ?_, ?_, ?_, hini2⟩
      · rw [Timer.runOps, hstep]
        exact hrun
      · rw [hmap]
        simp [expectedLabels]
      · rw [hlen]
        simp only [List.length_append, List.length_cons, List.length_nil]
        omega
    | addAuto t tid =>
      have hstep : Timer.runOp dbg auto s (.addAuto t tid) =
          .ok ⟨s.time_stamps ++ [⟨auto s.id, t, tid⟩], s.id + 1, set_insert tid s.thread_ids,
            s.dbg_initialized,
            if dbg then s.dbg_number_of_events + 1 else s.dbg_number_of_events⟩ := by
        rw [Timer.runOp, add_auto_eq, hguard]
        simp
      obtain ⟨s2, hrun, hmap, hlen, hini2⟩ :=
        runOps_adds ops
          ⟨s.time_stamps ++ [⟨auto s.id, t, tid⟩], s.id + 1, set_insert tid s.thread_ids,
            s.dbg_initialized,
            if dbg then s.dbg_number_of_events + 1 else s.dbg_number_of_events⟩
          hinit (fun o ho => hadds o (List.mem_cons_of_mem _ ho))
      refine ⟨s2, ?_, ?_, ?_, hini2⟩
      · rw [Timer.runOps, hstep]
        exact hrun
      · rw [hmap]
        simp [expectedLabels]
      · rw [hlen]
        simp only [List.length_append, List.length_cons, List.length_nil]
        omega

/-- A session `initialize(); add*; ...` never fails, produces one record
per call plus the reference event, and labels the records exactly as the
labeling rule predicts: the reference event takes counter value `0` and
the remaining labels follow with the counter at `1`. -/
theorem run_init_adds {α : Type} (dbg : Bool) (auto : Nat → α) (t : ℤ) (tid : Nat)
    (ops : List (TimerOp α)) (hadds : ∀ op ∈ ops, op.isAdd = true) :
    ∃ s, Timer.run dbg auto (TimerOp.init t tid :: ops) = .ok s
      ∧ s.time_stamps.map TimeStamp.name = auto 0 :: expectedLabels auto 1 ops
      ∧ s.time_stamps.length = 1 + ops.length := by
  have h0 : Timer.initialize dbg auto (TimerState.initial α) t tid =
      .ok ⟨[⟨auto 0, t, tid⟩], 1, [tid], dbg, if dbg then 1 else 0⟩ :=
    initialize_ok_of_inv auto (Inv_initial dbg) t tid
  obtain ⟨s2, hrun, hmap, hlen, _⟩ :=
    runOps_adds ops ⟨[⟨auto 0, t, tid⟩], 1, [tid], dbg, if dbg then 1 else 0⟩
      (fun hd => hd) hadds
  refine ⟨s2, ?_, ?_, ?_⟩
  · rw [Timer.run, Timer.runOps]
    have : Timer.runOp dbg auto (TimerState.initial α) (TimerOp.init t tid) =
        .ok ⟨[⟨auto 0, t, tid⟩], 1, [tid], dbg, if dbg then 1 else 0⟩ := h0
    rw [this]
    exact hrun
  · simpa using hmap
  · simpa using hlen

theorem nth_eq_get {α : Type} [Inhabited α] (s : TimerState α) {i : Nat}
    (h : i < s.time_stamps.length) :
    Timer.nth s i = s.time_stamps.get ⟨i, h⟩ :=
  List.getD_eq_get s.time_stamps default h

/-- When capture times are non-decreasing in append order, so are the
indexed reads. -/
theorem nth_time_mono {α : Type} [Inhabited α] {s : TimerState α}
    (hmono : s.time_stamps.Pairwise (fun a b => a.time_stamp ≤ b.time_stamp))
    {j k : Nat} (hjk : j ≤ k) (hk : k < s.time_stamps.length) :
    (Timer.nth s j).time_stamp ≤ (Timer.nth s k).time_stamp := by
  have hj : j < s.time_stamps.length := Nat.lt_of_le_of_lt hjk hk
  rcases Nat.lt_or_ge j k with h | h
  · rw [nth_eq_get s hj, nth_eq_get s hk]
    exact List.pairwise_iff_get.mp hmono ⟨j, hj⟩ ⟨k, hk⟩ h
  · have heq : j = k := Nat.le_antisymm hjk h
    subst heq
    exact le_refl _

theorem getLast?_eq_nth {α : Type} [Inhabited α] (s : TimerState α)
    (h : s.time_stamps ≠ []) :
    s.time_stamps.getLast? = some (Timer.nth s (s.time_stamps.length - 1)) := by
  rw [List.getLast?_eq_getLast_of_ne_nil h]
  congr 1
  rw [nth_eq_get s (by
    have := List.length_pos.mpr h
    omega)]
  exact List.getLast_eq_get _ h

/-- Claim C1: for every non-negative nanosecond count `n`,
`TimeStamp::to_string` selects its unit tier by first match top to bottom
with inclusive lower bounds — at least 100000000 the seconds tier (print
`n` divided by 1000000000), else at least 100000 the milliseconds tier
(divide by 1000000), else at least 100 the microseconds tier (divide by
1000), otherwise the nanoseconds tier (the raw count); in particular 100
lands in the microseconds tier and 99 in the nanoseconds tier.  The unit
strings name the tiers (the microsecond tier with the ASCII suffix the
source uses); the divided value is exact here whereas the C++ code
computes it in `double`. -/
theorem to_string_tier_selection (n : ℤ) (hn : 0 ≤ n) :
    (100000000 ≤ n → TimeStamp.to_string n = ⟨(n : ℚ) / 1000000000, "s"⟩)
  ∧ (100000 ≤ n → n < 100000000 → TimeStamp.to_string n = ⟨(n : ℚ) / 1000000, "ms"⟩)
  ∧ (100 ≤ n → n < 100000 → TimeStamp.to_string n = ⟨(n : ℚ) / 1000, "??s"⟩)
  ∧ (n < 100 → TimeStamp.to_string n = ⟨(n : ℚ), "ns"⟩)
  ∧ TimeStamp.to_string 100 = ⟨((100 : ℤ) : ℚ) / 1000, "??s"⟩
  ∧ TimeStamp.to_string 99 = ⟨((99 : ℤ) : ℚ), "ns"⟩ := by
  refine ⟨?_, ?_, ?_, ?_, by norm_num [TimeStamp.to_string], by norm_num [TimeStamp.to_string]⟩
  · intro h
    rw [TimeStamp.to_string, if_pos h]
  · intro h1 h2
    rw [TimeStamp.to_string, if_neg (by omega), if_pos h1]
  · intro h1 h2
    rw [TimeStamp.to_string, if_neg (by omega), if_neg (by omega), if_pos h1]
  · intro h
    rw [TimeStamp.to_string, if_neg (by omega), if_neg (by omega), if_neg (by omega)]

/-- Witness for C1, instantiated at `n = 150`. -/
theorem to_string_tier_selection_witness :
    (0 : ℤ) ≤ 150
  ∧ ((100000000 ≤ (150 : ℤ) → TimeStamp.to_string 150 = ⟨((150 : ℤ) : ℚ) / 1000000000, "s"⟩)
    ∧ (100000 ≤ (150 : ℤ) → (150 : ℤ) < 100000000 →
        TimeStamp.to_string 150 = ⟨((150 : ℤ) : ℚ) / 1000000, "ms"⟩)
    ∧ (100 ≤ (150 : ℤ) → (150 : ℤ) < 100000 →
        TimeStamp.to_string 150 = ⟨((150 : ℤ) : ℚ) / 1000, "??s"⟩)
    ∧ ((150 : ℤ) < 100 → TimeStamp.to_string 150 = ⟨((150 : ℤ) : ℚ), "ns"⟩)
    ∧ TimeStamp.to_string 100 = ⟨((100 : ℤ) : ℚ) / 1000, "??s"⟩
    ∧ TimeStamp.to_string 99 = ⟨((99 : ℤ) : ℚ), "ns"⟩) :=
  ⟨by decide, to_string_tier_selection 150 (by decide)⟩

/-- Claim C8 (code bug): at the microsecond tier the source appends the
ASCII suffix `"??s"` — not the `"µs"` stated by the specification and by
the example output documented at the bottom of src/example.cpp
(`5.23µs`).  Evaluated at the failing input 150 ns. -/
theorem micro_tier_suffix_ascii :
    (TimeStamp.to_string 150).unit = "??s" ∧ ("??s" : String) ≠ "µs" :=
  ⟨by decide, by decide⟩

/-- Claim C10: `integer_string_literal_helper` maps `0..9` to their
decimal strings and everything from ten on to the empty string; hence on
a `const char *` series every auto-labeled `add()` performed with the
counter at ten or beyond — that is, from the eleventh auto-label of the
session on — appends a record labeled `""`. -/
theorem integer_string_literal_helper_spec (i : Nat) :
    (i ≤ 9 → integer_string_literal_helper i = toString i)
  ∧ (10 ≤ i → integer_string_literal_helper i = "")
  ∧ (∀ (dbg : Bool) (s : TimerState String) (t : ℤ) (tid : Nat) (s2 : TimerState String),
      10 ≤ s.id → Timer.add_auto dbg integer_string_literal_helper s t tid = .ok s2 →
      s2.time_stamps.getLast? = some ⟨"", t, tid⟩) := by
  refine ⟨?_, ?_, ?_⟩
  · intro h
    interval_cases i <;> rfl
  · intro h
    rw [integer_string_literal_helper, if_neg (by omega)]
  · intro dbg s t tid s2 hid hadd
    rw [add_auto_eq] at hadd
    by_cases hg : (dbg && !s.dbg_initialized) = true
    · rw [if_pos hg] at hadd
      cases hadd
    · rw [if_neg hg] at hadd
      cases hadd
      have hemp : integer_string_literal_helper s.id = "" := by
        rw [integer_string_literal_helper, if_neg (by omega)]
      simp [List.getLast?_concat, hemp]

/-- Witness for C10 at `i = 7`, `i = 12`, and one concrete `add_auto`
with the counter at ten. -/
theorem integer_string_literal_helper_spec_witness :
    (integer_string_literal_helper 7 = toString 7)
  ∧ (integer_string_literal_helper 12 = "")
  ∧ ((⟨[⟨"0", 0, 0⟩, ⟨"", 5, 3⟩], 11, [0, 3], true, 2⟩ :
        TimerState String).time_stamps.getLast? = some ⟨"", 5, 3⟩) :=
  ⟨(integer_string_literal_helper_spec 7).1 (by decide),
   (integer_string_literal_helper_spec 12).2.1 (by decide),
   (integer_string_literal_helper_spec 0).2.2 true ⟨[⟨"0", 0, 0⟩], 10, [0], true, 1⟩ 5 3
     ⟨[⟨"0", 0, 0⟩, ⟨"", 5, 3⟩], 11, [0, 3], true, 2⟩ (by decide) (by rfl)⟩

/-- Claim C2 (amended): across a session every auto-label call — the one
inside `initialize` and each argumentless `add()` — takes the counter
values 0, 1, 2, ... in order, regardless of interleaved named
`add(label)` calls, and the counter advances only on auto-label calls
(`expectedLabels` keeps named labels as given and leaves the counter
untouched on them).  With the numeric label type the produced labels are
the counter values themselves; with `std::string` they are the decimal
strings of the counter.  For `const char *` the same counter discipline
holds but the generated label stops being the decimal string once the
counter reaches ten — see the counterexample and C10. -/
theorem auto_label_sequence (dbg : Bool) (t : ℤ) (tid : Nat)
    (restI : List (TimerOp ℤ)) (restS : List (TimerOp String))
    (hI : ∀ op ∈ restI, op.isAdd = true) (hS : ∀ op ∈ restS, op.isAdd = true) :
    finalLabels (Timer.run dbg (fun k => (k : ℤ)) (TimerOp.init t tid :: restI))
      = (0 : ℤ) :: expectedLabels (fun k => (k : ℤ)) 1 restI
  ∧ finalLabels (Timer.run dbg (fun k => toString k) (TimerOp.init t tid :: restS))
      = "0" :: expectedLabels (fun k => toString k) 1 restS := by
  constructor
  · obtain ⟨s, hrun, hmap, _⟩ := run_init_adds dbg (fun k => (k : ℤ)) t tid restI hI
    rw [hrun]
    simpa [finalLabels] using hmap
  · obtain ⟨s, hrun, hmap, _⟩ := run_init_adds dbg (fun k => toString k) t tid restS hS
    rw [hrun]
    simpa [finalLabels] using hmap

/-- Counterexample for C2 as stated: on a `const char *` series (whose
auto-label function is `integer_string_literal_helper`), the session
`initialize()` followed by ten auto-labeled `add()` calls produces the
labels `"0"`..`"9"` and then the empty string — the eleventh auto-label
is `""`, not the decimal string `"10"` the claim promises for a textual
label type. -/
theorem auto_label_sequence_cstring_fails :
    finalLabels (Timer.run true integer_string_literal_helper
        (TimerOp.init 0 0 :: List.replicate 10 (TimerOp.addAuto 0 0)))
      = ["0", "1", "2", "3", "4", "5", "6", "7", "8", "9", ""]
  ∧ ("" : String) ≠ "10" :=
  ⟨by rfl, by decide⟩

/-- Witness for C2 on a concrete interleaving: auto, named, auto after
`initialize`. -/
theorem auto_label_sequence_witness :
    finalLabels (Timer.run true (fun k => (k : ℤ))
        (TimerOp.init 0 0 ::
          [TimerOp.addAuto 1 0, TimerOp.addNamed 42 2 0, TimerOp.addAuto 3 0]))
      = (0 : ℤ) :: expectedLabels (fun k => (k : ℤ)) 1
          [TimerOp.addAuto 1 0, TimerOp.addNamed 42 2 0, TimerOp.addAuto 3 0]
  ∧ finalLabels (Timer.run true (fun k => toString k)
        (TimerOp.init 0 0 ::
          [TimerOp.addAuto 1 0, TimerOp.addNamed "x" 2 0, TimerOp.addAuto 3 0]))
      = "0" :: expectedLabels (fun k => toString k) 1
          [TimerOp.addAuto 1 0, TimerOp.addNamed "x" 2 0, TimerOp.addAuto 3 0] :=
  auto_label_sequence true 0 0 _ _ (by decide) (by decide)

/-- Claim C5: a session of `initialize()` followed by `n` add calls
(named or auto-labeled, with no intervening reset) leaves exactly
`1 + n` records: the reference event plus one record per add call. -/
theorem records_length_after_init {α : Type} (auto : Nat → α) (dbg : Bool) (t : ℤ)
    (tid : Nat) (ops : List (TimerOp α)) (hadds : ∀ op ∈ ops, op.isAdd = true) :
    ∃ s, Timer.run dbg auto (TimerOp.init t tid :: ops) = .ok s
      ∧ s.time_stamps.length = 1 + ops.length := by
  obtain ⟨s, hrun, _, hlen⟩ := run_init_adds dbg auto t tid ops hadds
  exact ⟨s, hrun, hlen⟩

/-- Witness for C5: three adds after initialize give four records. -/
theorem records_length_after_init_witness :
    ∃ s, Timer.run true (fun k => (k : ℤ))
        (TimerOp.init 0 0 ::
          [TimerOp.addNamed 5 1 0, TimerOp.addAuto 2 0, TimerOp.addNamed 7 3 0]) = .ok s
      ∧ s.time_stamps.length =
          1 + [TimerOp.addNamed (5 : ℤ) 1 0, TimerOp.addAuto 2 0,
                TimerOp.addNamed 7 3 0].length :=
  records_length_after_init (fun k => (k : ℤ)) true 0 0 _ (by decide)

/-- Claim C6: from every reachable series state, in the debug and the
production configuration alike, `initialize()` succeeds — in particular
it never reports `DoubleInitialization` — clearing all state (records,
auto-label counter, known-thread set) exactly as `reset()` does whenever
records are present, and leaving exactly one record: the reference event
labeled by the auto-labeling rule at counter value `0`. -/
theorem initialize_always_safe {α : Type} (auto : Nat → α) (dbg : Bool)
    (ops : List (TimerOp α)) (s : TimerState α) (t : ℤ) (tid : Nat)
    (h : Timer.run dbg auto ops = .ok s) :
    Timer.initialize dbg auto s t tid =
      .ok ⟨[⟨auto 0, t, tid⟩], 1, [tid], dbg, if dbg then 1 else 0⟩ :=
  initialize_ok_of_inv auto (Inv_run h) t tid

/-- Witness for C6: re-initializing in strict mode after a session that
already holds two records. -/
theorem initialize_always_safe_witness :
    Timer.initialize true (fun k => toString k)
        ⟨[⟨"0", 0, 0⟩, ⟨"x", 1, 0⟩], 1, [0], true, 2⟩ 5 7
      = .ok ⟨[⟨"0", 5, 7⟩], 1, [7], true, if true then 1 else 0⟩ :=
  initialize_always_safe (fun k => toString k) true
    [TimerOp.init 0 0, TimerOp.addNamed "x" 1 0]
    ⟨[⟨"0", 0, 0⟩, ⟨"x", 1, 0⟩], 1, [0], true, 2⟩ 5 7 (by rfl)

/-- Claim C7: in the strict/debug configuration, on every reachable
series `print_current` reports `InsufficientData` exactly when fewer
than two records exist (only the reference event, or nothing, has been
recorded); with at least two records it reports no error and prints the
line of the most recently appended record. -/
theorem print_current_strict {α : Type} [Inhabited α] (auto : Nat → α)
    (ops : List (TimerOp α)) (s : TimerState α)
    (h : Timer.run true auto ops = .ok s) :
    (Timer.print_current true s = .error .InsufficientData ↔ s.time_stamps.length < 2)
  ∧ (2 ≤ s.time_stamps.length →
      ∃ last, s.time_stamps.getLast? = some last
        ∧ Timer.print_current true s = .ok ⟨last.name,
            TimeStamp.to_string (Timer.get_time_since_last s (s.time_stamps.length - 1)),
            TimeStamp.to_string (Timer.get_time_since_init s (s.time_stamps.length - 1)),
            Timer.thread_output_formatter s last⟩) := by
  obtain ⟨-, -, hdbgt, -⟩ := Inv_run h
  obtain ⟨hev, -⟩ := hdbgt rfl
  have hg : (true && decide (s.dbg_number_of_events ≤ 1))
      = decide (s.time_stamps.length < 2) := by
    rw [Bool.true_and, hev]
    by_cases h2 : s.time_stamps.length < 2
    · rw [decide_eq_true h2,
        decide_eq_true (by exact_mod_cast by omega : (s.time_stamps.length : ℤ) ≤ 1)]
    · rw [decide_eq_false h2,
        decide_eq_false (by exact_mod_cast by omega : ¬((s.time_stamps.length : ℤ) ≤ 1))]
  constructor
  · by_cases h2 : s.time_stamps.length < 2
    · have hcond : (true && decide (s.dbg_number_of_events ≤ 1)) = true := by
        rw [hg]
        exact decide_eq_true h2
      rw [Timer.print_current, if_pos hcond]
      simp [h2]
    · have hcond : (true && decide (s.dbg_number_of_events ≤ 1)) = false := by
        rw [hg]
        exact decide_eq_false h2
      rw [Timer.print_current, if_neg (by simp [hcond])]
      simp [h2]
  · intro h2
    have hne : s.time_stamps ≠ [] := by
      intro he
      rw [he] at h2
      simp at h2
    refine ⟨Timer.nth s (s.time_stamps.length - 1), getLast?_eq_nth s hne, ?_⟩
    have hcond : (true && decide (s.dbg_number_of_events ≤ 1)) = false := by
      rw [hg]
      exact decide_eq_false (by omega)
    rw [Timer.print_current, if_neg (by simp [hcond])]

/-- Witness for C7 on the session `initialize(); add()` in strict mode. -/
theorem print_current_strict_witness :
    (Timer.print_current true (⟨[⟨0, 0, 0⟩, ⟨1, 1, 0⟩], 2, [0], true, 2⟩ : TimerState ℤ)
        = .error .InsufficientData
      ↔ (⟨[⟨0, 0, 0⟩, ⟨1, 1, 0⟩], 2, [0], true, 2⟩ : TimerState ℤ).time_stamps.length < 2)
  ∧ (2 ≤ (⟨[⟨0, 0, 0⟩, ⟨1, 1, 0⟩], 2, [0], true, 2⟩ : TimerState ℤ).time_stamps.length →
      ∃ last, (⟨[⟨0, 0, 0⟩, ⟨1, 1, 0⟩], 2, [0], true, 2⟩ :
            TimerState ℤ).time_stamps.getLast? = some last
        ∧ Timer.print_current true (⟨[⟨0, 0, 0⟩, ⟨1, 1, 0⟩], 2, [0], true, 2⟩ : TimerState ℤ)
            = .ok ⟨last.name,
              TimeStamp.to_string (Timer.get_time_since_last
                (⟨[⟨0, 0, 0⟩, ⟨1, 1, 0⟩], 2, [0], true, 2⟩ : TimerState ℤ)
                ((⟨[⟨0, 0, 0⟩, ⟨1, 1, 0⟩], 2, [0], true, 2⟩ :
                    TimerState ℤ).time_stamps.length - 1)),
              TimeStamp.to_string (Timer.get_time_since_init
                (⟨[⟨0, 0, 0⟩, ⟨1, 1, 0⟩], 2, [0], true, 2⟩ : TimerState ℤ)
                ((⟨[⟨0, 0, 0⟩, ⟨1, 1, 0⟩], 2, [0], true, 2⟩ :
                    TimerState ℤ).time_stamps.length - 1)),
              Timer.thread_output_formatter
                (⟨[⟨0, 0, 0⟩, ⟨1, 1, 0⟩], 2, [0], true, 2⟩ : TimerState ℤ) last⟩) :=
  print_current_strict (fun k => (k : ℤ)) [TimerOp.init 0 0, TimerOp.addAuto 1 0]
    ⟨[⟨0, 0, 0⟩, ⟨1, 1, 0⟩], 2, [0], true, 2⟩ (by rfl)

/-- Claim C9: on every reachable series — `thread_ids` being the set of
distinct identities that have ever appended — when exactly one identity
has appended, no per-record output line of `print_current` or `log`
carries an `" in thread"` clause; once two or more identities have been
observed, every line either query subsequently produces carries the
`" in thread : <index>"` clause. -/
theorem thread_clause_iff {α : Type} [Inhabited α] (auto : Nat → α) (dbg : Bool)
    (ops : List (TimerOp α)) (s : TimerState α)
    (h : Timer.run dbg auto ops = .ok s) :
    (s.thread_ids.length = 1 →
        (∀ line ∈ Timer.log_lines s, line.thread_clause = "")
      ∧ (∀ line, Timer.print_current dbg s = .ok line → line.thread_clause = ""))
  ∧ (2 ≤ s.thread_ids.length →
        (∀ line ∈ Timer.log_lines s,
          ∃ k : ℤ, line.thread_clause = " in thread : " ++ toString k)
      ∧ (∀ line, Timer.print_current dbg s = .ok line →
          ∃ k : ℤ, line.thread_clause = " in thread : " ++ toString k)) := by
  constructor
  · intro h1
    have hht : Timer.has_threads s = false := by
      rw [Timer.has_threads, h1]
      rfl
    have hfmt : ∀ ts : TimeStamp α, Timer.thread_output_formatter s ts = "" := by
      intro ts
      rw [Timer.thread_output_formatter, if_pos (by rw [hht]; rfl)]
    constructor
    · intro line hline
      rw [Timer.log_lines] at hline
      obtain ⟨i, -, rfl⟩ := List.mem_map.mp hline
      exact hfmt _
    · intro line hline
      rw [Timer.print_current] at hline
      by_cases hgg : (dbg && decide (s.dbg_number_of_events ≤ 1)) = true
      · rw [if_pos hgg] at hline
        cases hline
      · rw [if_neg hgg] at hline
        cases hline
        exact hfmt _
  · intro h2
    have hht : Timer.has_threads s = true := by
      rw [Timer.has_threads]
      exact decide_eq_true (by omega)
    have hfmt : ∀ ts : TimeStamp α, ∃ k : ℤ,
        Timer.thread_output_formatter s ts = " in thread : " ++ toString k := by
      intro ts
      refine ⟨Timer.get_thread_name s ts.thread_id, ?_⟩
      rw [Timer.thread_output_formatter, if_neg (by simp [hht])]
    constructor
    · intro line hline
      rw [Timer.log_lines] at hline
      obtain ⟨i, -, rfl⟩ := List.mem_map.mp hline
      exact hfmt _
    · intro line hline
      rw [Timer.print_current] at hline
      by_cases hgg : (dbg && decide (s.dbg_number_of_events ≤ 1)) = true
      · rw [if_pos hgg] at hline
        cases hline
      · rw [if_neg hgg] at hline
        cases hline
        exact hfmt _

/-- Witness for C9 on a session recorded by two distinct threads. -/
theorem thread_clause_iff_witness :
    ((⟨[⟨0, 0, 0⟩, ⟨5, 1, 1⟩], 1, [0, 1], true, 2⟩ : TimerState ℤ).thread_ids.length = 1 →
        (∀ line ∈ Timer.log_lines
            (⟨[⟨0, 0, 0⟩, ⟨5, 1, 1⟩], 1, [0, 1], true, 2⟩ : TimerState ℤ),
          line.thread_clause = "")
      ∧ (∀ line, Timer.print_current true
            (⟨[⟨0, 0, 0⟩, ⟨5, 1, 1⟩], 1, [0, 1], true, 2⟩ : TimerState ℤ) = .ok line →
          line.thread_clause = ""))
  ∧ (2 ≤ (⟨[⟨0, 0, 0⟩, ⟨5, 1, 1⟩], 1, [0, 1], true, 2⟩ : TimerState ℤ).thread_ids.length →
        (∀ line ∈ Timer.log_lines
            (⟨[⟨0, 0, 0⟩, ⟨5, 1, 1⟩], 1, [0, 1], true, 2⟩ : TimerState ℤ),
          ∃ k : ℤ, line.thread_clause = " in thread : " ++ toString k)
      ∧ (∀ line, Timer.print_current true
            (⟨[⟨0, 0, 0⟩, ⟨5, 1, 1⟩], 1, [0, 1], true, 2⟩ : TimerState ℤ) = .ok line →
          ∃ k : ℤ, line.thread_clause = " in thread : " ++ toString k)) :=
  thread_clause_iff (fun k => (k : ℤ)) true [TimerOp.init 0 0, TimerOp.addNamed 5 1 1]
    ⟨[⟨0, 0, 0⟩, ⟨5, 1, 1⟩], 1, [0, 1], true, 2⟩ (by rfl)

/-- Counterexample for C3 as stated: indices come from the position in
the identity-ordered `std::set`, not from discovery order, so they are
not stable as further threads are discovered.  Thread identity 5 starts
the session and is indexed 0; after identity 3 (ordered below 5) appends,
the query for 5 returns 1. -/
theorem thread_index_not_stable :
    Timer.run true (fun k => (k : ℤ)) [TimerOp.init 0 5]
      = .ok ⟨[⟨0, 0, 5⟩], 1, [5], true, 1⟩
  ∧ Timer.get_thread_name (⟨[⟨0, 0, 5⟩], 1, [5], true, 1⟩ : TimerState ℤ) 5 = 0
  ∧ Timer.run true (fun k => (k : ℤ)) [TimerOp.init 0 5, TimerOp.addNamed 7 1 3]
      = .ok ⟨[⟨0, 0, 5⟩, ⟨7, 1, 3⟩], 1, [3, 5], true, 2⟩
  ∧ Timer.get_thread_name
      (⟨[⟨0, 0, 5⟩, ⟨7, 1, 3⟩], 1, [3, 5], true, 2⟩ : TimerState ℤ) 5 = 1 :=
  ⟨by rfl, by rfl, by rfl, by rfl⟩

/-- Claim C3 (amended): within one session `get_thread_name` indexes a
thread identity by its position in the identity-ordered known-thread set
(the iteration order of the `std::set`), not by discovery order: for an
observed identity the result is the number of known identities ordered
below it, and it is unchanged by further appends from identities not
ordered below it — while an append by a smaller new identity shifts it,
as the counterexample shows; a never-observed identity yields the
sentinel `-1`. -/
theorem thread_index_sorted {α : Type} (auto : Nat → α) (dbg : Bool)
    (ops : List (TimerOp α)) (s : TimerState α)
    (h : Timer.run dbg auto ops = .ok s) :
    (∀ tid : Nat, tid ∉ s.thread_ids → Timer.get_thread_name s tid = -1)
  ∧ (∀ tid ∈ s.thread_ids,
      Timer.get_thread_name s tid
        = ((s.thread_ids.filter (fun x => decide (x < tid))).length : ℤ))
  ∧ (∀ tid ∈ s.thread_ids, ∀ (n : α) (t : ℤ) (tid2 : Nat) (s2 : TimerState α),
      tid ≤ tid2 → Timer.add dbg s n t tid2 = .ok s2 →
      Timer.get_thread_name s2 tid = Timer.get_thread_name s tid)
  ∧ (∀ tid ∈ s.thread_ids, ∀ (t : ℤ) (tid2 : Nat) (s2 : TimerState α),
      tid ≤ tid2 → Timer.add_auto dbg auto s t tid2 = .ok s2 →
      Timer.get_thread_name s2 tid = Timer.get_thread_name s tid) := by
  have hsort := (Inv_run h).1
  refine ⟨?_, ?_, ?_, ?_⟩
  · intro tid hmem
    exact get_thread_name_from_not_mem hmem 0
  · intro tid hmem
    rw [Timer.get_thread_name, get_thread_name_from_sorted hsort hmem 0]
    simp
  · intro tid hmem n t tid2 s2 hle hadd
    rw [add_eq] at hadd
    by_cases hgg : (dbg && !s.dbg_initialized) = true
    · rw [if_pos hgg] at hadd
      cases hadd
    · rw [if_neg hgg] at hadd
      cases hadd
      rw [Timer.get_thread_name, Timer.get_thread_name]
      exact get_thread_name_from_set_insert hsort hmem hle 0
  · intro tid hmem t tid2 s2 hle hadd
    rw [add_auto_eq] at hadd
    by_cases hgg : (dbg && !s.dbg_initialized) = true
    · rw [if_pos hgg] at hadd
      cases hadd
    · rw [if_neg hgg] at hadd
      cases hadd
      rw [Timer.get_thread_name, Timer.get_thread_name]
      exact get_thread_name_from_set_insert hsort hmem hle 0

/-- Witness for C3 on a two-thread session. -/
theorem thread_index_sorted_witness :
    (∀ tid : Nat,
        tid ∉ (⟨[⟨0, 0, 5⟩, ⟨7, 1, 3⟩], 1, [3, 5], true, 2⟩ : TimerState ℤ).thread_ids →
        Timer.get_thread_name
          (⟨[⟨0, 0, 5⟩, ⟨7, 1, 3⟩], 1, [3, 5], true, 2⟩ : TimerState ℤ) tid = -1)
  ∧ (∀ tid ∈ (⟨[⟨0, 0, 5⟩, ⟨7, 1, 3⟩], 1, [3, 5], true, 2⟩ : TimerState ℤ).thread_ids,
      Timer.get_thread_name
          (⟨[⟨0, 0, 5⟩, ⟨7, 1, 3⟩], 1, [3, 5], true, 2⟩ : TimerState ℤ) tid
        = (((⟨[⟨0, 0, 5⟩, ⟨7, 1, 3⟩], 1, [3, 5], true, 2⟩ :
              TimerState ℤ).thread_ids.filter (fun x => decide (x < tid))).length : ℤ))
  ∧ (∀ tid ∈ (⟨[⟨0, 0, 5⟩, ⟨7, 1, 3⟩], 1, [3, 5], true, 2⟩ : TimerState ℤ).thread_ids,
      ∀ (n : ℤ) (t : ℤ) (tid2 : Nat) (s2 : TimerState ℤ),
      tid ≤ tid2 →
      Timer.add true (⟨[⟨0, 0, 5⟩, ⟨7, 1, 3⟩], 1, [3, 5], true, 2⟩ : TimerState ℤ)
          n t tid2 = .ok s2 →
      Timer.get_thread_name s2 tid
        = Timer.get_thread_name
            (⟨[⟨0, 0, 5⟩, ⟨7, 1, 3⟩], 1, [3, 5], true, 2⟩ : TimerState ℤ) tid)
  ∧ (∀ tid ∈ (⟨[⟨0, 0, 5⟩, ⟨7, 1, 3⟩], 1, [3, 5], true, 2⟩ : TimerState ℤ).thread_ids,
      ∀ (t : ℤ) (tid2 : Nat) (s2 : TimerState ℤ),
      tid ≤ tid2 →
      Timer.add_auto true (fun k => (k : ℤ))
          (⟨[⟨0, 0, 5⟩, ⟨7, 1, 3⟩], 1, [3, 5], true, 2⟩ : TimerState ℤ) t tid2 = .ok s2 →
      Timer.get_thread_name s2 tid
        = Timer.get_thread_name
            (⟨[⟨0, 0, 5⟩, ⟨7, 1, 3⟩], 1, [3, 5], true, 2⟩ : TimerState ℤ) tid) :=
  thread_index_sorted (fun k => (k : ℤ)) true [TimerOp.init 0 5, TimerOp.addNamed 7 1 3]
    ⟨[⟨0, 0, 5⟩, ⟨7, 1, 3⟩], 1, [3, 5], true, 2⟩ (by rfl)

/-- Claim C4: on a series whose capture times are non-decreasing in
append order, for every index `i ≥ 1` within range the two derived
metrics are additive and non-negative:
`get_time_since_init i = get_time_since_init (i - 1) + get_time_since_last i`,
and both values are at least zero. -/
theorem elapsed_additive {α : Type} [Inhabited α] (s : TimerState α) (i : Nat)
    (hmono : s.time_stamps.Pairwise (fun a b => a.time_stamp ≤ b.time_stamp))
    (h1 : 1 ≤ i) (h2 : i < s.time_stamps.length) :
    Timer.get_time_since_init s i
        = Timer.get_time_since_init s (i - 1) + Timer.get_time_since_last s i
  ∧ 0 ≤ Timer.get_time_since_init s i
  ∧ 0 ≤ Timer.get_time_since_last s i := by
  refine ⟨?_, ?_, ?_⟩
  · rw [Timer.get_time_since_init, Timer.get_time_since_init, Timer.get_time_since_last,
      TimeStamp.get_diff, TimeStamp.get_diff, TimeStamp.get_diff]
    ring
  · have := nth_time_mono hmono (Nat.zero_le i) h2
    rw [Timer.get_time_since_init, TimeStamp.get_diff]
    omega
  · have := nth_time_mono hmono (Nat.sub_le i 1) h2
    rw [Timer.get_time_since_last, TimeStamp.get_diff]
    omega

/-- Witness for C4 at index 2 of a three-record series with capture
times 0, 2, 5. -/
theorem elapsed_additive_witness :
    Timer.get_time_since_init (⟨[⟨0, 0, 0⟩, ⟨1, 2, 0⟩, ⟨2, 5, 0⟩], 3, [0], true, 3⟩ :
          TimerState ℤ) 2
        = Timer.get_time_since_init
            (⟨[⟨0, 0, 0⟩, ⟨1, 2, 0⟩, ⟨2, 5, 0⟩], 3, [0], true, 3⟩ : TimerState ℤ) (2 - 1)
          + Timer.get_time_since_last
            (⟨[⟨0, 0, 0⟩, ⟨1, 2, 0⟩, ⟨2, 5, 0⟩], 3, [0], true, 3⟩ : TimerState ℤ) 2
  ∧ 0 ≤ Timer.get_time_since_init
        (⟨[⟨0, 0, 0⟩, ⟨1, 2, 0⟩, ⟨2, 5, 0⟩], 3, [0], true, 3⟩ : TimerState ℤ) 2
  ∧ 0 ≤ Timer.get_time_since_last
        (⟨[⟨0, 0, 0⟩, ⟨1, 2, 0⟩, ⟨2, 5, 0⟩], 3, [0], true, 3⟩ : TimerState ℤ) 2 :=
  elapsed_additive ⟨[⟨0, 0, 0⟩, ⟨1, 2, 0⟩, ⟨2, 5, 0⟩], 3, [0], true, 3⟩ 2
    (by decide) (by decide) (by decide)
